import Mathlib

/-!
Shallow embedding of `src/csv2influx/lineprotocol.py` (class
`LineProtocolExporter`), the Line Protocol encoder of the csv2influx
repository, together with theorems settling the frozen claims about it.

Python strings are modelled as `List Char`; Python `str.replace` with a
one-character needle is modelled by `replaceChar`; `str.lower` by
`List.map Char.toLower` (the inputs of interest are ASCII); raising an
exception is modelled by `Except`.
-/

/-- A Python string, modelled as its list of characters. -/
abbrev Str := List Char

/-- Abbreviation turning a Lean string literal into the `Str` model. -/
def charsOf (s : String) : Str := s.toList

/-- Python `value.replace(c, r)` for a single-character needle `c`:
every occurrence of the character `c` in `s` is replaced by `r`. -/
def replaceChar : Str → Char → Str → Str
  | [], _, _ => []
  | ch :: rest, c, r => (if ch = c then r else [ch]) ++ replaceChar rest c r

/-- `LineProtocolExporter.sanitize` (lineprotocol.py line 69):
`value.replace(',', '\,').replace(' ', '\ ').replace('=', '\=').lower()`.
In Python source, `'\,'`, `'\ '` and `'\='` each denote the two-character
string backslash-then-character. -/
def sanitize (value : Str) : Str :=
  (replaceChar (replaceChar (replaceChar value ',' ['\\', ','])
    ' ' ['\\', ' ']) '=' ['\\', '=']).map Char.toLower

/-- `LineProtocolExporter.sanitize_measurement` (lineprotocol.py line 77):
`value.replace(',', '\,').replace(' ', '\ ').lower()`. -/
def sanitize_measurement (value : Str) : Str :=
  (replaceChar (replaceChar value ',' ['\\', ',']) ' ' ['\\', ' ']).map Char.toLower

/-- `LineProtocolExporter.VALID_FIELD_TYPES` (lineprotocol.py line 25). -/
def VALID_FIELD_TYPES : List Str :=
  [charsOf "float", charsOf "int", charsOf "str", charsOf "bool"]

/-- `LineProtocolExporter.sanitize_field_value` (lineprotocol.py lines 79-92).
The Python function has no `else` branch, hence returns `None` for an
unrecognized type: modelled by `Option`.  In the `str` branch the Python
source reads `value.replace('"', '\"')`; the literal `'\"'` is an escape
sequence denoting the single character `"`, so that replacement maps `"` to
`"` and changes nothing. -/
def sanitize_field_value (value : Str) (typ : Str) : Option Str :=
  if typ = charsOf "int" then some (value ++ ['i'])
  else if typ = charsOf "float" then some value
  else if typ = charsOf "str" then some ('"' :: (replaceChar value '"' ['"'] ++ ['"']))
  else if typ = charsOf "bool" then some value
  else none

/-- Python `'%s' % v` applied to the result of `sanitize_field_value`:
`None` is formatted as the text `None`. -/
def fmtFieldValue : Option Str → Str
  | some s => s
  | none => charsOf "None"

/-- Python `'%s' % timestamp` for the stored timestamp: a schema built
without a timestamp (argument `None`) formats as the text `None`. -/
def fmtTimestamp : Option Str → Str
  | some s => s
  | none => charsOf "None"

/-- Errors raised by `LineProtocolExporter.__init__`.  The first two are the
spec's `InvalidSchema` (wrong field type, lines 33-34; count mismatch, lines
35-38); `unknownColumn` is the spec's `UnknownColumn` (lines 43-47);
`lookupError` is the unstructured `ValueError` a failing `list.index` raises
(line 53). -/
inductive BuildError
  | invalidSchemaWrongType (valid : List Str)
  | invalidSchemaLengthMismatch (nCols nTypes : Nat)
  | unknownColumn (missing : List Str)
  | lookupError (name : Str)
deriving DecidableEq

/-- Errors raised by `LineProtocolExporter.export`: the arity check of lines
98-99 (the spec's `RowArityMismatch`, carrying the label count and the row
length), and the `IndexError` Python would raise on an out-of-range index
(unreachable for schemas produced by `build`). -/
inductive ExportError
  | rowArityMismatch (nLabels nValues : Nat)
  | indexError
deriving DecidableEq

/-- The state a successful `LineProtocolExporter.__init__` stores on `self`
(lineprotocol.py lines 28-53). -/
structure Schema where
  labels : List Str
  measurement : Str
  tag_columns : List Str
  field_columns : List Str
  field_types : List Str
  timestamp : Option Str
  field_columns_indexes : List Nat
  tag_columns_indexes : List Nat
deriving DecidableEq

/-- Python `l.index(s)` on a list: index of the first occurrence, a
`ValueError` (here `lookupError`) when absent. -/
def indexOfE (l : List Str) (s : Str) : Except BuildError Nat :=
  match l with
  | [] => .error (.lookupError s)
  | x :: rest =>
    if x = s then .ok 0
    else
      match indexOfE rest s with
      | .ok i => .ok (i + 1)
      | .error e => .error e

/-- A Python list comprehension whose body may raise: the first raised
error aborts the whole comprehension. -/
def exMapM (f : α → Except ε β) : List α → Except ε (List β)
  | [] => .ok []
  | a :: rest =>
    match f a with
    | .error e => .error e
    | .ok b =>
      match exMapM f rest with
      | .error e => .error e
      | .ok bs => .ok (b :: bs)

/-- `LineProtocolExporter.__init__` (lineprotocol.py lines 27-53).
Steps, in source order: sanitize labels, measurement and tag columns
(lines 28-31); reject an invalid field type (lines 33-34), then a
column/type count mismatch (lines 35-38); sanitize field columns (line 40);
reject tag or field names missing from the sanitized labels, naming the
set difference (lines 43-47); resolve field columns against the sanitized
labels (line 50) and tag columns against the raw `labels` argument
(line 53) with Python `list.index`. -/
def build (labels : List Str) (measurement : Str) (tag_columns : List Str)
    (field_columns : List Str) (field_types : List Str) (timestamp : Option Str) :
    Except BuildError Schema :=
  let slabels := labels.map sanitize
  let smeasurement := sanitize_measurement measurement
  let stags := tag_columns.map sanitize
  if field_types.any (fun typ => !decide (typ ∈ VALID_FIELD_TYPES)) then
    .error (.invalidSchemaWrongType VALID_FIELD_TYPES)
  else if field_columns.length ≠ field_types.length then
    .error (.invalidSchemaLengthMismatch field_columns.length field_types.length)
  else
    let sfields := field_columns.map sanitize
    if !(stags ++ sfields).all (fun c => decide (c ∈ slabels)) then
      .error (.unknownColumn
        (((stags ++ sfields).dedup).filter (fun c => !decide (c ∈ slabels))))
    else
      match exMapM (indexOfE slabels) sfields with
      | .error e => .error e
      | .ok fidx =>
        match exMapM (indexOfE labels) stags with
        | .error e => .error e
        | .ok tidx =>
          .ok { labels := slabels, measurement := smeasurement,
                tag_columns := stags, field_columns := sfields,
                field_types := field_types, timestamp := timestamp,
                field_columns_indexes := fidx, tag_columns_indexes := tidx }

/-- One element of the tag-set comprehension (lineprotocol.py line 101):
`'%s=%s' % (self.labels[i], self.sanitize(lst[i]))`. -/
def tagPiece (labels lst : List Str) (i : Nat) : Except ExportError Str :=
  match labels[i]?, lst[i]? with
  | some lab, some v => .ok (lab ++ '=' :: sanitize v)
  | _, _ => .error .indexError

/-- One element of the field-set comprehension (lineprotocol.py line 103),
at enumerate pair `jk = (j, k)`:
`'%s=%s' % (self.labels[k], self.sanitize_field_value(lst[k], self.field_types[j]))`. -/
def fieldPiece (labels lst field_types : List Str) (jk : Nat × Nat) :
    Except ExportError Str :=
  match labels[jk.2]?, lst[jk.2]?, field_types[jk.1]? with
  | some lab, some v, some typ =>
      .ok (lab ++ '=' :: fmtFieldValue (sanitize_field_value v typ))
  | _, _, _ => .error .indexError

/-- Lines 101-110 of `export` after both comprehensions have produced their
pieces: the tag set is the comma-join, the series key prepends the
measurement when the tag set is non-empty, and the result is
`'%s %s %s' % (key, field_set, timestamp)`. -/
def assembleLine (measurement : Str) (tagPieces fieldPieces : List Str)
    (timestamp : Option Str) : Str :=
  let tag_set := List.intercalate [','] tagPieces
  let key := if tag_set = [] then measurement else measurement ++ ',' :: tag_set
  let field_set := List.intercalate [','] fieldPieces
  key ++ ' ' :: (field_set ++ ' ' :: fmtTimestamp timestamp)

/-- `LineProtocolExporter.export` (lineprotocol.py lines 94-110): arity
check first (lines 98-99), then tag pieces, field pieces (over
`enumerate(self.field_columns_indexes)`) and the final `'%s %s %s'`. -/
def exportRow (e : Schema) (lst : List Str) : Except ExportError Str :=
  if lst.length = e.labels.length then
    match exMapM (tagPiece e.labels lst) e.tag_columns_indexes with
    | .error err => .error err
    | .ok tagPieces =>
      match exMapM (fieldPiece e.labels lst e.field_types) e.field_columns_indexes.enum with
      | .error err => .error err
      | .ok fieldPieces =>
          .ok (assembleLine e.measurement tagPieces fieldPieces e.timestamp)
  else .error (.rowArityMismatch e.labels.length lst.length)

/-- Is this build error one of the spec's `InvalidSchema` errors? -/
def BuildError.isInvalidSchema : BuildError → Bool
  | .invalidSchemaWrongType _ => true
  | .invalidSchemaLengthMismatch _ _ => true
  | _ => false

/-- Is this build error the spec's `UnknownColumn` error? -/
def BuildError.isUnknownColumn : BuildError → Bool
  | .unknownColumn _ => true
  | _ => false

/-- Is this build error the unstructured `list.index` lookup error? -/
def BuildError.isLookupError : BuildError → Bool
  | .lookupError _ => true
  | _ => false

/-- The characters the generic sanitize escapes: comma, space, equals. -/
def isSpecial (c : Char) : Bool := decide (c = ',' ∨ c = ' ' ∨ c = '=')

/-- Single-pass description of the generic sanitize: each comma, space or
equals sign becomes that character preceded by one backslash, every other
character is lowercased. -/
def sanitizeSpec : Str → Str
  | [] => []
  | c :: rest =>
      (if isSpecial c then ['\\', c] else [c.toLower]) ++ sanitizeSpec rest

/-- Scan of a string with known previous character: no comma, space or
equals sign appears except immediately after a backslash. -/
def wellEscapedFrom (prev : Char) : Str → Bool
  | [] => true
  | c :: rest => (!isSpecial c || prev == '\\') && wellEscapedFrom c rest

/-- A string in which every comma, space and equals sign is immediately
preceded by a backslash. -/
def wellEscaped : Str → Bool
  | [] => true
  | c :: rest => !isSpecial c && wellEscapedFrom c rest

deriving instance DecidableEq for Except

/-- The schema the constructor builds in the spec's round-trip scenario:
labels `time, speed, name, class`, measurement `cars`, tags `name, class`,
field `speed` of type `int`, fixed timestamp. -/
def carsSchema : Schema :=
  { labels := [charsOf "time", charsOf "speed", charsOf "name", charsOf "class"],
    measurement := charsOf "cars",
    tag_columns := [charsOf "name", charsOf "class"],
    field_columns := [charsOf "speed"],
    field_types := [charsOf "int"],
    timestamp := some (charsOf "1474855200000000000"),
    field_columns_indexes := [1],
    tag_columns_indexes := [2, 3] }

/-- A minimal schema built without a timestamp: one label `a`, measurement
`m`, no tags, one `float` field. -/
def schemaNoTs : Schema :=
  { labels := [charsOf "a"],
    measurement := charsOf "m",
    tag_columns := [],
    field_columns := [charsOf "a"],
    field_types := [charsOf "float"],
    timestamp := none,
    field_columns_indexes := [0],
    tag_columns_indexes := [] }

theorem replaceChar_append (l1 l2 : Str) (c : Char) (r : Str) :
    replaceChar (l1 ++ l2) c r = replaceChar l1 c r ++ replaceChar l2 c r := by
  induction l1 with
  | nil => rfl
  | cons x rest ih => simp [replaceChar, ih]

theorem sanitize_cons (c : Char) (rest : Str) :
    sanitize (c :: rest) =
      (if isSpecial c then ['\\', c] else [c.toLower]) ++ sanitize rest := by
  show (replaceChar (replaceChar (replaceChar (c :: rest) ',' _) ' ' _) '=' _).map _ = _
  rw [replaceChar, replaceChar_append, replaceChar_append, List.map_append]
  congr 1
  by_cases h1 : c = ','
  · subst h1; decide
  · by_cases h2 : c = ' '
    · subst h2; simp [h1]; decide
    · by_cases h3 : c = '='
      · subst h3; simp [h1, h2]; decide
      · simp [h1, h2, h3, replaceChar, isSpecial]

theorem sanitize_eq_sanitizeSpec (s : Str) : sanitize s = sanitizeSpec s := by
  induction s with
  | nil => rfl
  | cons c rest ih => rw [sanitize_cons, ih]; rfl

theorem isSpecial_toLower (c : Char) : isSpecial c.toLower = isSpecial c := by
  unfold Char.toLower
  by_cases h : c.toNat ≥ 65 ∧ c.toNat ≤ 90
  · rw [if_pos h]
    obtain ⟨h1, h2⟩ := h
    have d1 : c ≠ ',' := by intro e; subst e; exact absurd h1 (by decide)
    have d2 : c ≠ ' ' := by intro e; subst e; exact absurd h1 (by decide)
    have d3 : c ≠ '=' := by intro e; subst e; exact absurd h1 (by decide)
    have hc : isSpecial c = false := by simp [isSpecial, d1, d2, d3]
    rw [hc]
    obtain ⟨n, hn⟩ : ∃ n, c.toNat = n := ⟨c.toNat, rfl⟩
    rw [hn] at h1 h2 ⊢
    interval_cases n <;> decide
  · rw [if_neg h]

theorem wellEscapedFrom_sanitizeSpec (s : Str) :
    ∀ prev, wellEscapedFrom prev (sanitizeSpec s) = true := by
  induction s with
  | nil => intro prev; rfl
  | cons c rest ih =>
    intro prev
    by_cases h : isSpecial c = true
    · simp [sanitizeSpec, h, wellEscapedFrom, ih]
      exact Or.inl (by decide)
    · simp [sanitizeSpec, h, wellEscapedFrom, isSpecial_toLower, ih]

theorem wellEscaped_sanitizeSpec (s : Str) : wellEscaped (sanitizeSpec s) = true := by
  cases s with
  | nil => rfl
  | cons c rest =>
    by_cases h : isSpecial c = true
    · simp [sanitizeSpec, h, wellEscaped, wellEscapedFrom, wellEscapedFrom_sanitizeSpec]
      decide
    · simp [sanitizeSpec, h, wellEscaped, isSpecial_toLower,
        wellEscapedFrom_sanitizeSpec]

theorem indexOfE_ok_lt {l : List Str} {s : Str} {i : Nat}
    (h : indexOfE l s = .ok i) : i < l.length := by
  induction l generalizing i with
  | nil => exact absurd h (by simp [indexOfE])
  | cons x rest ih =>
    rw [indexOfE] at h
    by_cases hx : x = s
    · rw [if_pos hx] at h
      injection h with h
      simp only [List.length_cons]
      omega
    · rw [if_neg hx] at h
      cases hrec : indexOfE rest s with
      | ok j =>
        rw [hrec] at h
        injection h with h
        have := ih hrec
        simp only [List.length_cons]
        omega
      | error e => rw [hrec] at h; exact absurd h (by simp)

theorem indexOfE_ok_of_mem {l : List Str} {s : Str} (h : s ∈ l) :
    ∃ i, indexOfE l s = .ok i := by
  induction l with
  | nil => exact absurd h (by simp)
  | cons x rest ih =>
    by_cases hx : x = s
    · exact ⟨0, by rw [indexOfE, if_pos hx]⟩
    · have hs : s ∈ rest := by
        cases List.mem_cons.mp h with
        | inl he => exact absurd he.symm hx
        | inr hr => exact hr
      obtain ⟨i, hi⟩ := ih hs
      exact ⟨i + 1, by rw [indexOfE, if_neg hx, hi]⟩

theorem indexOfE_not_mem {l : List Str} {s : Str} (h : s ∉ l) :
    indexOfE l s = .error (.lookupError s) := by
  induction l with
  | nil => rfl
  | cons x rest ih =>
    have hx : x ≠ s := fun e => h (e ▸ List.mem_cons_self x rest)
    have hs : s ∉ rest := fun hr => h (List.mem_cons_of_mem x hr)
    rw [indexOfE, if_neg hx, ih hs]

theorem exMapM_ok_length {f : α → Except ε β} {l : List α} {bs : List β}
    (h : exMapM f l = .ok bs) : bs.length = l.length := by
  induction l generalizing bs with
  | nil =>
    rw [exMapM] at h
    injection h with h
    rw [← h]
    rfl
  | cons a rest ih =>
    rw [exMapM] at h
    cases hfa : f a with
    | error e => rw [hfa] at h; exact absurd h (by simp)
    | ok b =>
      rw [hfa] at h
      cases hrec : exMapM f rest with
      | error e => rw [hrec] at h; exact absurd h (by simp)
      | ok bs2 =>
        rw [hrec] at h
        injection h with h
        rw [← h]
        simp [ih hrec]

theorem exMapM_ok_mem {f : α → Except ε β} {l : List α} {bs : List β}
    (h : exMapM f l = .ok bs) : ∀ b ∈ bs, ∃ a ∈ l, f a = .ok b := by
  induction l generalizing bs with
  | nil =>
    rw [exMapM] at h
    injection h with h
    rw [← h]
    intro b hb
    exact absurd hb (by simp)
  | cons a rest ih =>
    rw [exMapM] at h
    cases hfa : f a with
    | error e => rw [hfa] at h; exact absurd h (by simp)
    | ok b0 =>
      rw [hfa] at h
      cases hrec : exMapM f rest with
      | error e => rw [hrec] at h; exact absurd h (by simp)
      | ok bs2 =>
        rw [hrec] at h
        injection h with h
        intro b hb
        rw [← h] at hb
        cases List.mem_cons.mp hb with
        | inl he => exact ⟨a, List.mem_cons_self a rest, he ▸ hfa⟩
        | inr hr =>
          obtain ⟨a2, ha2, hfa2⟩ := ih hrec b hr
          exact ⟨a2, List.mem_cons_of_mem a ha2, hfa2⟩

theorem exMapM_ok_of_forall {f : α → Except ε β} {l : List α}
    (h : ∀ a ∈ l, ∃ b, f a = .ok b) : ∃ bs, exMapM f l = .ok bs := by
  induction l with
  | nil => exact ⟨[], rfl⟩
  | cons a rest ih =>
    obtain ⟨b, hb⟩ := h a (List.mem_cons_self a rest)
    obtain ⟨bs, hbs⟩ := ih (fun x hx => h x (List.mem_cons_of_mem a hx))
    exact ⟨b :: bs, by rw [exMapM, hb, hbs]⟩

theorem exMapM_indexOfE_error {labels l : List Str}
    (h : ∃ s ∈ l, s ∉ labels) :
    ∃ nm, exMapM (indexOfE labels) l = .error (.lookupError nm) ∧
      nm ∈ l ∧ nm ∉ labels := by
  induction l with
  | nil => simp at h
  | cons a rest ih =>
    by_cases ha : a ∈ labels
    · obtain ⟨i, hi⟩ := indexOfE_ok_of_mem ha
      have h2 : ∃ s ∈ rest, s ∉ labels := by
        obtain ⟨s, hs, hns⟩ := h
        cases List.mem_cons.mp hs with
        | inl he => exact absurd (he ▸ ha) hns
        | inr hr => exact ⟨s, hr, hns⟩
      obtain ⟨nm, hnm, h3, h4⟩ := ih h2
      exact ⟨nm, by rw [exMapM, hi, hnm], List.mem_cons_of_mem a h3, h4⟩
    · exact ⟨a, by rw [exMapM, indexOfE_not_mem ha],
        List.mem_cons_self a rest, ha⟩

theorem build_ok_spec {labels : List Str} {measurement : Str}
    {tag_columns field_columns field_types : List Str} {timestamp : Option Str}
    {sch : Schema}
    (h : build labels measurement tag_columns field_columns field_types timestamp
      = .ok sch) :
    sch.labels = labels.map sanitize ∧
    sch.measurement = sanitize_measurement measurement ∧
    sch.field_types = field_types ∧
    sch.timestamp = timestamp ∧
    (∀ t ∈ field_types, t ∈ VALID_FIELD_TYPES) ∧
    sch.field_columns_indexes.length = field_types.length ∧
    (∀ i ∈ sch.field_columns_indexes, i < sch.labels.length) ∧
    (∀ i ∈ sch.tag_columns_indexes, i < sch.labels.length) := by
  rw [build] at h
  by_cases h1 : field_types.any (fun typ => !decide (typ ∈ VALID_FIELD_TYPES)) = true
  · rw [if_pos h1] at h; exact absurd h (by simp)
  · rw [if_neg h1] at h
    by_cases h2 : field_columns.length ≠ field_types.length
    · rw [if_pos h2] at h; exact absurd h (by simp)
    · rw [if_neg h2] at h
      by_cases h3 : (!(tag_columns.map sanitize ++ field_columns.map sanitize).all
          (fun c => decide (c ∈ labels.map sanitize))) = true
      · rw [if_pos h3] at h; exact absurd h (by simp)
      · rw [if_neg h3] at h
        cases hf : exMapM (indexOfE (labels.map sanitize)) (field_columns.map sanitize) with
        | error e => rw [hf] at h; exact absurd h (by simp)
        | ok fidx =>
          rw [hf] at h
          cases ht : exMapM (indexOfE labels) (tag_columns.map sanitize) with
          | error e => rw [ht] at h; exact absurd h (by simp)
          | ok tidx =>
            rw [ht] at h
            injection h with h
            subst h
            refine ⟨rfl, rfl, rfl, rfl, ?_, ?_, ?_, ?_⟩
            · intro t hmem
              by_contra hnv
              exact h1 (List.any_eq_true.mpr ⟨t, hmem, by simp [hnv]⟩)
            · have := exMapM_ok_length hf
              simp only [List.length_map] at this
              simp only [this]
              omega
            · intro i hi
              obtain ⟨a, _, ha⟩ := exMapM_ok_mem hf i hi
              exact indexOfE_ok_lt ha
            · intro i hi
              obtain ⟨a, _, ha⟩ := exMapM_ok_mem ht i hi
              have := indexOfE_ok_lt ha
              simpa using this

theorem tagPiece_ok {labels lst : List Str} {i : Nat}
    (hi : i < labels.length) (hlen : lst.length = labels.length) :
    ∃ p, tagPiece labels lst i = .ok p := by
  have h1 : labels[i]? = some labels[i] := List.getElem?_eq_getElem hi
  have hi2 : i < lst.length := by omega
  have h2 : lst[i]? = some lst[i] := List.getElem?_eq_getElem hi2
  exact ⟨labels[i] ++ '=' :: sanitize lst[i], by rw [tagPiece, h1, h2]⟩

theorem fieldPiece_ok {labels lst field_types : List Str} {jk : Nat × Nat}
    (hk : jk.2 < labels.length) (hj : jk.1 < field_types.length)
    (hlen : lst.length = labels.length) :
    ∃ p, fieldPiece labels lst field_types jk = .ok p := by
  have h1 : labels[jk.2]? = some labels[jk.2] := List.getElem?_eq_getElem hk
  have hk2 : jk.2 < lst.length := by omega
  have h2 : lst[jk.2]? = some lst[jk.2] := List.getElem?_eq_getElem hk2
  have h3 : field_types[jk.1]? = some field_types[jk.1] := List.getElem?_eq_getElem hj
  exact ⟨labels[jk.2] ++ '=' ::
      fmtFieldValue (sanitize_field_value lst[jk.2] field_types[jk.1]),
    by rw [fieldPiece, h1, h2, h3]⟩

theorem mem_enum_bounds {l : List α} {jk : Nat × α} (h : jk ∈ l.enum) :
    jk.1 < l.length ∧ jk.2 ∈ l := by
  rw [List.mem_enum_iff_get?] at h
  exact ⟨List.get?_eq_some.mp h |>.choose, List.get?_mem h⟩

theorem exportRow_ok {sch : Schema} {lst : List Str}
    (hlen : lst.length = sch.labels.length)
    (htag : ∀ i ∈ sch.tag_columns_indexes, i < sch.labels.length)
    (hfk : ∀ i ∈ sch.field_columns_indexes, i < sch.labels.length)
    (hflen : sch.field_columns_indexes.length ≤ sch.field_types.length) :
    ∃ tps fps,
      exportRow sch lst = .ok (assembleLine sch.measurement tps fps sch.timestamp) := by
  obtain ⟨tps, htps⟩ :=
    exMapM_ok_of_forall (fun i hi => tagPiece_ok (htag i hi) hlen)
  obtain ⟨fps, hfps⟩ := exMapM_ok_of_forall
    (f := fieldPiece sch.labels lst sch.field_types)
    (l := sch.field_columns_indexes.enum)
    (fun jk hjk => by
      obtain ⟨hb1, hb2⟩ := mem_enum_bounds hjk
      exact fieldPiece_ok (hfk _ hb2) (lt_of_lt_of_le hb1 hflen) hlen)
  exact ⟨tps, fps, by rw [exportRow, if_pos hlen, htps, hfps]⟩

theorem sanitize_field_value_isSome (v t : Str) (h : t ∈ VALID_FIELD_TYPES) :
    (sanitize_field_value v t).isSome = true := by
  fin_cases h <;> rfl

/-- Claim C1: for the schema built from labels `[time, speed, name, class]`,
measurement `cars`, tag columns `[name, class]`, field columns
`[("speed", "int")]` and timestamp `1474855200000000000`, export applied to
the row `["2016-09-26", "55", "Model T", "vintage"]` returns exactly
`cars,name=model\ t,class=vintage speed=55i 1474855200000000000`. -/
theorem claim1_cars_roundtrip :
    build [charsOf "time", charsOf "speed", charsOf "name", charsOf "class"]
        (charsOf "cars") [charsOf "name", charsOf "class"] [charsOf "speed"]
        [charsOf "int"] (some (charsOf "1474855200000000000")) = .ok carsSchema ∧
    exportRow carsSchema
        [charsOf "2016-09-26", charsOf "55", charsOf "Model T", charsOf "vintage"]
      = .ok (charsOf "cars,name=model\\ t,class=vintage speed=55i 1474855200000000000") :=
  ⟨by decide, by decide⟩

/-- Claim C3 (code bug): for a field declared `str`, the exporter does not
escape embedded double quotes — the value `He said "hi"` yields the field
value `"He said "hi""`, not the claimed `"He said \"hi\""` — because the
Python replacement `value.replace('"', '\"')` substitutes `"` for `"`. -/
theorem claim3_str_value_not_escaped :
    sanitize_field_value (charsOf "He said \"hi\"") (charsOf "str")
      = some (charsOf "\"He said \"hi\"\"") ∧
    sanitize_field_value (charsOf "He said \"hi\"") (charsOf "str")
      ≠ some (charsOf "\"He said \\\"hi\\\"\"") :=
  ⟨by decide, by decide⟩

/-- Claim C7: on every input containing a comma, space or equals sign, the
generic sanitize performs exactly the substitutions comma, space, equals to
their backslash-prefixed forms, in that order, lowercases the result, and
in the output every such character is immediately preceded by a backslash. -/
theorem claim7_sanitize_exact (s : Str) (hs : ∃ c ∈ s, isSpecial c = true) :
    sanitize s = sanitizeSpec s ∧ wellEscaped (sanitize s) = true := by
  have h := sanitize_eq_sanitizeSpec s
  exact ⟨h, by rw [h]; exact wellEscaped_sanitizeSpec s⟩

/-- Witness for C7 at the concrete input `a,b`. -/
theorem claim7_sanitize_exact_witness :
    sanitize (charsOf "a,b") = sanitizeSpec (charsOf "a,b") ∧
    wellEscaped (sanitize (charsOf "a,b")) = true :=
  claim7_sanitize_exact (charsOf "a,b") ⟨',', by decide, by decide⟩

/-- Claim C8: the generic sanitize is not idempotent — re-applying it to an
already-sanitized string adds further backslashes. -/
theorem claim8_sanitize_not_idempotent :
    ∃ s : Str, sanitize (sanitize s) ≠ sanitize s :=
  ⟨[','], by decide⟩

/-- Claim C2 (counterexample): for the schema built without a timestamp over
label `a`, measurement `m`, field `a` of type `float`, exporting the row
`["1"]` yields `m a=1 None` — not the claimed `m a=1` with no trailing
timestamp component. -/
theorem claim2_counterexample :
    build [charsOf "a"] (charsOf "m") [] [charsOf "a"] [charsOf "float"] none
      = .ok schemaNoTs ∧
    exportRow schemaNoTs [charsOf "1"] = .ok (charsOf "m a=1 None") ∧
    charsOf "m a=1 None" ≠ charsOf "m a=1" :=
  ⟨by decide, by decide, by decide⟩

/-- Claim C2 (amended): for every constructed schema and row of matching
arity, export returns `<series key> <field set> <timestamp>` where the third
component is the formatted stored timestamp: the configured string verbatim
when one was supplied, the text `None` when the schema was constructed
without one — the line never drops the trailing separator. -/
theorem claim2_amended (labels : List Str) (measurement : Str)
    (tag_columns field_columns field_types : List Str) (timestamp : Option Str)
    (sch : Schema) (lst : List Str)
    (hbuild : build labels measurement tag_columns field_columns field_types timestamp
      = .ok sch)
    (hlen : lst.length = sch.labels.length) :
    (∃ key fset, exportRow sch lst
      = .ok (key ++ ' ' :: (fset ++ ' ' :: fmtTimestamp timestamp))) ∧
    (∀ t, fmtTimestamp (some t) = t) ∧ fmtTimestamp none = charsOf "None" := by
  obtain ⟨hl, hm, hft, hts, hvalid, hflen, hfk, htk⟩ := build_ok_spec hbuild
  obtain ⟨tps, fps, hout⟩ := exportRow_ok hlen htk hfk (by simp [hft, hflen])
  refine ⟨⟨if List.intercalate [','] tps = [] then sch.measurement
      else sch.measurement ++ ',' :: List.intercalate [','] tps,
    List.intercalate [','] fps, ?_⟩, fun t => rfl, rfl⟩
  rw [hout, ← hts]
  rfl

/-- Witness for the amended C2 at the concrete no-timestamp schema. -/
theorem claim2_amended_witness :
    (∃ key fset, exportRow schemaNoTs [charsOf "1"]
      = .ok (key ++ ' ' :: (fset ++ ' ' :: fmtTimestamp none))) ∧
    (∀ t, fmtTimestamp (some t) = t) ∧ fmtTimestamp none = charsOf "None" :=
  claim2_amended [charsOf "a"] (charsOf "m") [] [charsOf "a"] [charsOf "float"]
    none schemaNoTs [charsOf "1"] (by decide) (by decide)

/-- Claim C4: for every constructed schema, export fails — with the arity
error carrying the expected label count and the actual row length — exactly
when the row length differs from the label count; rows of matching arity are
exported in full (the label count equals that of the construction input, so
no truncation or padding occurs). -/
theorem claim4_row_arity (labels : List Str) (measurement : Str)
    (tag_columns field_columns field_types : List Str) (timestamp : Option Str)
    (sch : Schema) (lst : List Str)
    (hbuild : build labels measurement tag_columns field_columns field_types timestamp
      = .ok sch) :
    (lst.length ≠ sch.labels.length →
      exportRow sch lst = .error (.rowArityMismatch sch.labels.length lst.length)) ∧
    (lst.length = sch.labels.length → ∃ out, exportRow sch lst = .ok out) ∧
    sch.labels.length = labels.length := by
  obtain ⟨hl, hm, hft, hts, hvalid, hflen, hfk, htk⟩ := build_ok_spec hbuild
  refine ⟨?_, ?_, by rw [hl]; simp⟩
  · intro hne
    rw [exportRow, if_neg hne]
  · intro heq
    obtain ⟨tps, fps, hout⟩ := exportRow_ok heq htk hfk (by simp [hft, hflen])
    exact ⟨_, hout⟩

/-- Witness for C4 at the cars schema and the short row `["2016-09-26"]`. -/
theorem claim4_row_arity_witness :
    (([charsOf "2016-09-26"] : List Str).length ≠ carsSchema.labels.length →
      exportRow carsSchema [charsOf "2016-09-26"]
        = .error (.rowArityMismatch carsSchema.labels.length
            ([charsOf "2016-09-26"] : List Str).length)) ∧
    (([charsOf "2016-09-26"] : List Str).length = carsSchema.labels.length →
      ∃ out, exportRow carsSchema [charsOf "2016-09-26"] = .ok out) ∧
    carsSchema.labels.length
      = [charsOf "time", charsOf "speed", charsOf "name", charsOf "class"].length :=
  claim4_row_arity [charsOf "time", charsOf "speed", charsOf "name", charsOf "class"]
    (charsOf "cars") [charsOf "name", charsOf "class"] [charsOf "speed"]
    [charsOf "int"] (some (charsOf "1474855200000000000")) carsSchema
    [charsOf "2016-09-26"] (by decide)

/-- Claim C5: whenever the field-column list and the field-type list have
different lengths, construction fails with one of the InvalidSchema errors
and no schema is produced. -/
theorem claim5_field_count_mismatch (labels : List Str) (measurement : Str)
    (tag_columns field_columns field_types : List Str) (timestamp : Option Str)
    (hne : field_columns.length ≠ field_types.length) :
    ∃ e, build labels measurement tag_columns field_columns field_types timestamp
        = .error e ∧ e.isInvalidSchema = true := by
  by_cases h1 : field_types.any (fun typ => !decide (typ ∈ VALID_FIELD_TYPES)) = true
  · exact ⟨.invalidSchemaWrongType VALID_FIELD_TYPES,
      by rw [build]; rw [if_pos h1], rfl⟩
  · exact ⟨.invalidSchemaLengthMismatch field_columns.length field_types.length,
      by rw [build]; rw [if_neg h1, if_pos hne], rfl⟩

/-- Witness for C5: one field column, an empty type list. -/
theorem claim5_field_count_mismatch_witness :
    ∃ e, build [charsOf "a"] (charsOf "m") [] [charsOf "a"] [] none
        = .error e ∧ e.isInvalidSchema = true :=
  claim5_field_count_mismatch [charsOf "a"] (charsOf "m") [] [charsOf "a"] []
    none (by decide)

/-- Claim C6 (counterexample): constructing with labels `[a]`, field column
`b` and the invalid field type `nope` references a column absent from the
labels, yet construction fails with the wrong-field-type InvalidSchema
error, not with UnknownColumn — the type check runs first. -/
theorem claim6_counterexample :
    sanitize (charsOf "b") ∉ ([charsOf "a"] : List Str).map sanitize ∧
    build [charsOf "a"] (charsOf "m") [] [charsOf "b"] [charsOf "nope"] none
      = .error (.invalidSchemaWrongType VALID_FIELD_TYPES) ∧
    (BuildError.invalidSchemaWrongType VALID_FIELD_TYPES).isUnknownColumn = false :=
  ⟨by decide, by decide, by decide⟩

/-- Claim C6 (amended): for every construction input whose field types are
all valid and whose field-column and field-type lists have equal length, if
some sanitized tag or field column name is absent from the sanitized labels
then construction fails with UnknownColumn, naming exactly the missing
sanitized names. -/
theorem claim6_amended (labels : List Str) (measurement : Str)
    (tag_columns field_columns field_types : List Str) (timestamp : Option Str)
    (h1 : ∀ t ∈ field_types, t ∈ VALID_FIELD_TYPES)
    (h2 : field_columns.length = field_types.length)
    (h3 : ∃ c ∈ tag_columns.map sanitize ++ field_columns.map sanitize,
      c ∉ labels.map sanitize) :
    ∃ miss, build labels measurement tag_columns field_columns field_types timestamp
        = .error (.unknownColumn miss) ∧ miss ≠ [] ∧
      ∀ c, (c ∈ miss ↔
        c ∈ tag_columns.map sanitize ++ field_columns.map sanitize ∧
          c ∉ labels.map sanitize) := by
  have ha : ¬ (field_types.any (fun typ => !decide (typ ∈ VALID_FIELD_TYPES)) = true) := by
    intro hcon
    obtain ⟨x, hx, hbx⟩ := List.any_eq_true.mp hcon
    simp [h1 x hx] at hbx
  have hb : ¬ (field_columns.length ≠ field_types.length) := fun hc => hc h2
  have hcnd : (!(tag_columns.map sanitize ++ field_columns.map sanitize).all
      (fun c => decide (c ∈ labels.map sanitize))) = true := by
    obtain ⟨c, hc, hnc⟩ := h3
    cases hb2 : (tag_columns.map sanitize ++ field_columns.map sanitize).all
        (fun c => decide (c ∈ labels.map sanitize)) with
    | false => rfl
    | true =>
      have := List.all_eq_true.mp hb2 c hc
      rw [decide_eq_true_eq] at this
      exact absurd this hnc
  refine ⟨((tag_columns.map sanitize ++ field_columns.map sanitize).dedup).filter
      (fun c => !decide (c ∈ labels.map sanitize)), ?_, ?_, ?_⟩
  · rw [build, if_neg ha, if_neg hb, if_pos hcnd]
  · obtain ⟨c, hc, hnc⟩ := h3
    have hmem : c ∈ ((tag_columns.map sanitize ++ field_columns.map sanitize).dedup).filter
        (fun c => !decide (c ∈ labels.map sanitize)) := by
      rw [List.mem_filter]
      exact ⟨List.mem_dedup.mpr hc, by simp [hnc]⟩
    exact List.ne_nil_of_mem hmem
  · intro c
    simp [List.mem_filter, List.mem_dedup]

/-- Witness for the amended C6: field column `b` with valid type `int`
against labels `[a]`. -/
theorem claim6_amended_witness :
    ∃ miss, build [charsOf "a"] (charsOf "m") [] [charsOf "b"] [charsOf "int"] none
        = .error (.unknownColumn miss) ∧ miss ≠ [] ∧
      ∀ c, (c ∈ miss ↔
        c ∈ ([] : List Str).map sanitize ++ ([charsOf "b"] : List Str).map sanitize ∧
          c ∉ ([charsOf "a"] : List Str).map sanitize) :=
  claim6_amended [charsOf "a"] (charsOf "m") [] [charsOf "b"] [charsOf "int"]
    none (by decide) (by decide) (by decide)

/-- Claim C9 (counterexample): with labels `[x]`, tag column `y`, field
column `x` of type `int`, the sanitized tag name `y` is absent from the raw
labels, yet construction fails with UnknownColumn — the subset validation
fires before the raw-label index resolution, so the unstructured lookup
error is not reached. -/
theorem claim9_counterexample :
    sanitize (charsOf "y") ∉ ([charsOf "x"] : List Str) ∧
    build [charsOf "x"] (charsOf "m") [charsOf "y"] [charsOf "x"] [charsOf "int"] none
      = .error (.unknownColumn [charsOf "y"]) ∧
    (BuildError.unknownColumn [charsOf "y"]).isLookupError = false :=
  ⟨by decide, by decide, by decide⟩

/-- Claim C9 (amended): for every construction input that passes the
field-type, count and sanitized-subset validations, if some tag column's
sanitized, lowercased name is absent from the raw, unsanitized labels —
e.g. whenever the matching header label contains an uppercase letter,
comma, space, or equals sign — construction fails with the unstructured
lookup error naming that sanitized tag, because tag positions are resolved
by searching the raw labels. -/
theorem claim9_amended (labels : List Str) (measurement : Str)
    (tag_columns field_columns field_types : List Str) (timestamp : Option Str)
    (h1 : ∀ t ∈ field_types, t ∈ VALID_FIELD_TYPES)
    (h2 : field_columns.length = field_types.length)
    (h3 : ∀ c ∈ tag_columns.map sanitize ++ field_columns.map sanitize,
      c ∈ labels.map sanitize)
    (h4 : ∃ c ∈ tag_columns.map sanitize, c ∉ labels) :
    ∃ nm, build labels measurement tag_columns field_columns field_types timestamp
        = .error (.lookupError nm) ∧ nm ∈ tag_columns.map sanitize ∧ nm ∉ labels := by
  have ha : ¬ (field_types.any (fun typ => !decide (typ ∈ VALID_FIELD_TYPES)) = true) := by
    intro hcon
    obtain ⟨x, hx, hbx⟩ := List.any_eq_true.mp hcon
    simp [h1 x hx] at hbx
  have hb : ¬ (field_columns.length ≠ field_types.length) := fun hc => hc h2
  have hallt : ((tag_columns.map sanitize ++ field_columns.map sanitize).all
      (fun c => decide (c ∈ labels.map sanitize))) = true := by
    rw [List.all_eq_true]
    intro x hx
    exact decide_eq_true (h3 x hx)
  have hcnd : ¬ ((!(tag_columns.map sanitize ++ field_columns.map sanitize).all
      (fun c => decide (c ∈ labels.map sanitize))) = true) := by
    rw [hallt]
    decide
  obtain ⟨fidx, hfidx⟩ := exMapM_ok_of_forall
    (f := indexOfE (labels.map sanitize)) (l := field_columns.map sanitize)
    (fun c hc => indexOfE_ok_of_mem (h3 c (List.mem_append_right _ hc)))
  obtain ⟨nm, hnm, hmem, hnot⟩ := exMapM_indexOfE_error h4
  refine ⟨nm, ?_, hmem, hnot⟩
  rw [build, if_neg ha, if_neg hb, if_neg hcnd, hfidx, hnm]

/-- Witness for the amended C9: header label `Name` with tag column `Name`:
the sanitized tag `name` matches the sanitized label but not the raw one. -/
theorem claim9_amended_witness :
    ∃ nm, build [charsOf "Name"] (charsOf "m") [charsOf "Name"] [charsOf "Name"]
        [charsOf "int"] none = .error (.lookupError nm) ∧
      nm ∈ ([charsOf "Name"] : List Str).map sanitize ∧ nm ∉ [charsOf "Name"] :=
  claim9_amended [charsOf "Name"] (charsOf "m") [charsOf "Name"] [charsOf "Name"]
    [charsOf "int"] none (by decide) (by decide) (by decide) (by decide)

/-- Claim C10: every schema that passed construction stores only field types
drawn from `VALID_FIELD_TYPES`, so the untyped fall-through branch of
`sanitize_field_value` can never yield `none` for a stored type, and export
of any row of matching arity returns a string. -/
theorem claim10_valid_types_export_total (labels : List Str) (measurement : Str)
    (tag_columns field_columns field_types : List Str) (timestamp : Option Str)
    (sch : Schema)
    (hbuild : build labels measurement tag_columns field_columns field_types timestamp
      = .ok sch) :
    (∀ t ∈ sch.field_types, t ∈ VALID_FIELD_TYPES) ∧
    (∀ t ∈ sch.field_types, ∀ v, (sanitize_field_value v t).isSome = true) ∧
    (∀ lst : List Str, lst.length = sch.labels.length →
      ∃ out, exportRow sch lst = .ok out) := by
  obtain ⟨hl, hm, hft, hts, hvalid, hflen, hfk, htk⟩ := build_ok_spec hbuild
  have hv : ∀ t ∈ sch.field_types, t ∈ VALID_FIELD_TYPES := by
    rw [hft]; exact hvalid
  refine ⟨hv, fun t ht v => sanitize_field_value_isSome v t (hv t ht), ?_⟩
  intro lst hlen
  obtain ⟨tps, fps, hout⟩ := exportRow_ok hlen htk hfk (by simp [hft, hflen])
  exact ⟨_, hout⟩

/-- Witness for C10 at the cars schema. -/
theorem claim10_valid_types_export_total_witness :
    (∀ t ∈ carsSchema.field_types, t ∈ VALID_FIELD_TYPES) ∧
    (∀ t ∈ carsSchema.field_types, ∀ v, (sanitize_field_value v t).isSome = true) ∧
    (∀ lst : List Str, lst.length = carsSchema.labels.length →
      ∃ out, exportRow carsSchema lst = .ok out) :=
  claim10_valid_types_export_total
    [charsOf "time", charsOf "speed", charsOf "name", charsOf "class"]
    (charsOf "cars") [charsOf "name", charsOf "class"] [charsOf "speed"]
    [charsOf "int"] (some (charsOf "1474855200000000000")) carsSchema (by decide)
